import Mathlib

/-!
Verification development for the Paradox-script parser/writer pair in
`always_run.py` and the closed-form allocator in `support_scripts/allocator.py`.

The parser is embedded as a function over the remaining input (`List Char`);
the Python cursor only ever moves forward, so a position-free suffix
representation is equivalent.  Loops of the source that need not terminate
(the item-collection loop of `parse_object` and the mutual recursion
`parse_object` / `parse_value`) are embedded with a fuel parameter; running
out of fuel is the outcome `PRes.noFuel`, and "the embedded computation
returns `noFuel` for every fuel" expresses non-termination of the source
loop.  The Python expression `char in '<>'` raises `TypeError` when `char`
is `None` (end of input); this is the outcome `PRes.tyErr`.
-/

/-- The character `{` (written via its code point to keep it out of string
literals). -/
def lbrace : Char := Char.ofNat 123

/-- The character `}`. -/
def rbrace : Char := Char.ofNat 125

/-- The character `"`. -/
def dquote : Char := Char.ofNat 34

/-- The character `'`. -/
def squote : Char := Char.ofNat 39

/-- The backslash character. -/
def bslash : Char := Char.ofNat 92

/-- The whitespace set of `skip_whitespace` (`' \t\n\r'`, line 44). -/
def isSpaceChar (c : Char) : Bool :=
  decide (c = ' ' ∨ c = '\t' ∨ c = '\n' ∨ c = '\r')

/-- `ParadoxParser.skip_whitespace` (lines 38-51): skip runs of whitespace;
on `#` consume through the end of the line and continue.  The Boolean flag
records whether we are currently inside a line comment (the source's inner
`while` loop); the newline that terminates a comment is consumed by the
outer loop as whitespace, which is equivalent to consuming it here. -/
def skipWsAux : Bool → List Char → List Char
  | _, [] => []
  | true, c :: rest =>
    if c = '\n' then skipWsAux false rest else skipWsAux true rest
  | false, c :: rest =>
    if isSpaceChar c then skipWsAux false rest
    else if c = '#' then skipWsAux true rest
    else c :: rest

def skip_whitespace (s : List Char) : List Char := skipWsAux false s

/-- The delimiter set of `parse_identifier` (`'{}=#\n\r\t '`, line 82). -/
def isIdentDelim (c : Char) : Bool :=
  decide (c = lbrace ∨ c = rbrace ∨ c = '=' ∨ c = '#' ∨
          c = '\n' ∨ c = '\r' ∨ c = '\t' ∨ c = ' ')

/-- The accumulation loop of `ParadoxParser.parse_identifier` (lines 74-88):
collect characters until a delimiter, returning the collected characters and
the remaining input. -/
def identAux : List Char → List Char × List Char
  | [] => ([], [])
  | c :: rest =>
    if isIdentDelim c then ([], c :: rest)
    else
      let (a, r) := identAux rest
      (c :: a, r)

def parse_identifier (s : List Char) : String × List Char :=
  let (a, r) := identAux s
  (String.mk a, r)

/-- The accumulation loop of `ParadoxParser.parse_string` (lines 58-70),
after the opening quote has been consumed.  `q` is the opening quote
character; a backslash consumes itself and copies the next character
verbatim; the matching quote is consumed and ends the string; end of input
ends the string silently. -/
def stringAux (q : Char) : List Char → List Char × List Char
  | [] => ([], [])
  | c :: rest =>
    if c = q then ([], rest)
    else if c = bslash then
      match rest with
      | [] => ([], [])
      | d :: rest2 =>
        let (a, r) := stringAux q rest2
        (d :: a, r)
    else
      let (a, r) := stringAux q rest
      (c :: a, r)

/-- `ParadoxParser.parse_string` (lines 53-72): the first character is the
opening quote and determines the matching closing character. -/
def parse_string : List Char → String × List Char
  | [] => ("", [])
  | q :: rest =>
    let (a, r) := stringAux q rest
    (String.mk a, r)

/-- Outcome of an embedded parser computation.  `ok` carries the result and
the remaining input; `tyErr` is the Python `TypeError` raised by
`char in '<>'` when `char` is `None`; `noFuel` means the fuel ran out. -/
inductive PRes (α : Type) where
  | ok (a : α) (rest : List Char)
  | tyErr
  | noFuel

/-- `ParadoxParser.parse_comparison_or_value` (lines 90-120): read an
identifier; skip whitespace; if the next character is `<` or `>` (with an
optional compound `=`), read a second identifier and return the folded
comparison token.  When the input is exhausted after the identifier, the
source evaluates `None in '<>'`, a `TypeError`. -/
def parse_comparison_or_value (s : List Char) : PRes String :=
  let (first, s1) := identAux s
  match skip_whitespace s1 with
  | [] => .tyErr
  | c :: rest =>
    if c = '<' ∨ c = '>' then
      let (op, r) :=
        if rest.head? = some '=' then ([c, '='], rest.tail) else ([c], rest)
      let r2 := skip_whitespace r
      let (second, r3) := identAux r2
      .ok (String.mk (first ++ op ++ second)) r3
    else .ok (String.mk first) (c :: rest)

/-- Values of the parsed document tree: Python `str`, `bool`, `int`,
`None`, `dict` (insertion-ordered association list) and `list`. -/
inductive PValue where
  | vStr (s : String)
  | vBool (b : Bool)
  | vInt (n : Int)
  | vNone
  | vDict (entries : List (String × PValue))
  | vList (elems : List PValue)

/-- One collected item of the `parse_object` loop
(`{'key':…, 'value':…, 'has_operator':…}`, lines 190 and 194). -/
structure Item where
  key : String
  value : PValue
  hasOp : Bool

/-- Python `dict` lookup on an insertion-ordered association list. -/
def dictFind : List (String × PValue) → String → Option PValue
  | [], _ => none
  | (k', v') :: rest, k => if k' = k then some v' else dictFind rest k

/-- Python `dict` assignment: update the first binding in place, else
append at the end (insertion order). -/
def dictSet : List (String × PValue) → String → PValue → List (String × PValue)
  | [], k, v => [(k, v)]
  | (k', v') :: rest, k, v =>
    if k' = k then (k', v) :: rest else (k', v') :: dictSet rest k v

/-- The duplicate-key handling of the `none_have_operators` and mixed
branches of `parse_object` (lines 226-233 and 240-247): a fresh key is
appended; an existing non-list value is wrapped into a one-element list
first; then the new value is appended to the list. -/
def addDupValue (d : List (String × PValue)) (k : String) (v : PValue) :
    List (String × PValue) :=
  match dictFind d k with
  | none => d ++ [(k, v)]
  | some (.vList xs) => dictSet d k (.vList (xs ++ [v]))
  | some old => dictSet d k (.vList [old, v])

/-- The structure classification at the end of `parse_object`
(lines 196-248): empty → empty dict; all operators and unique keys →
plain dict; all operators with a duplicate key → list of one-key dicts;
no operators → dict of `True` flags with duplicate keys promoted to
lists; mixed → dict with duplicate keys promoted to lists. -/
def classify (items : List Item) : PValue :=
  if items.isEmpty then .vDict []
  else
    let allOps := items.all (fun it => it.hasOp)
    let noneOps := items.all (fun it => !it.hasOp)
    let keys : List String := items.map (fun it => it.key)
    let hasDups : Bool := !(decide (List.Nodup keys))
    if allOps && !hasDups then
      .vDict (items.foldl (fun d it => dictSet d it.key it.value) [])
    else if allOps && hasDups then
      .vList (items.map (fun it => .vDict [(it.key, it.value)]))
    else if noneOps then
      .vDict (items.foldl (fun d it => addDupValue d it.key (.vBool true)) [])
    else
      .vDict (items.foldl (fun d it => addDupValue d it.key it.value) [])

/-- The three mutually recursive procedures of the parser: `parse_object`
(entry, lines 142-151), the item-collection loop of `parse_object`
(lines 152-194, ending in the classification), and `parse_value`
(lines 122-140). -/
inductive PCall where
  | objC (s : List Char)
  | collectC (s : List Char) (items : List Item)
  | valC (s : List Char)

/-- One fuelled interpreter for the mutual recursion of the parser.  The
source checks `if key is None: break` (line 167), but
`parse_comparison_or_value` always returns a string, so that branch is dead
and is not represented. -/
def runP : Nat → PCall → PRes PValue
  | 0, _ => .noFuel
  | f + 1, .objC s =>
    match skip_whitespace s with
    | [] => runP f (.collectC [] [])
    | c :: r =>
      if c = lbrace then runP f (.collectC r [])
      else runP f (.collectC (c :: r) [])
  | f + 1, .collectC s items =>
    match s with
    | [] => .ok (classify items) []
    | _ :: _ =>
      match skip_whitespace s with
      | [] => .ok (classify items) []
      | c :: r =>
        if c = rbrace then .ok (classify items) r
        else
          match parse_comparison_or_value (c :: r) with
          | .tyErr => .tyErr
          | .noFuel => .noFuel
          | .ok key s2 =>
            match skip_whitespace s2 with
            | '=' :: r2 =>
              let r3 := if r2.head? = some '=' then r2.tail else r2
              let r4 := skip_whitespace r3
              match runP f (.valC r4) with
              | .ok v s4 => runP f (.collectC s4 (items ++ [⟨key, v, true⟩]))
              | .tyErr => .tyErr
              | .noFuel => .noFuel
            | s3 => runP f (.collectC s3 (items ++ [⟨key, .vBool true, false⟩]))
  | f + 1, .valC s =>
    match skip_whitespace s with
    | [] => .ok .vNone []
    | c :: r =>
      if c = dquote ∨ c = squote then
        let (str, rest) := parse_string (c :: r)
        .ok (.vStr str) rest
      else if c = lbrace then runP f (.objC (c :: r))
      else
        match parse_comparison_or_value (c :: r) with
        | .ok v rest => .ok (.vStr v) rest
        | .tyErr => .tyErr
        | .noFuel => .noFuel

/-- `ParadoxParser.parse` (lines 18-20): parse the entire document. -/
def pdxParse (fuel : Nat) (s : List Char) : PRes PValue :=
  runP fuel (.objC s)

/-- Prefix test on character lists (used for the Python substring test
`op in key`). -/
def startsWithL : List Char → List Char → Bool
  | [], _ => true
  | _ :: _, [] => false
  | a :: t1, b :: t2 => a == b && startsWithL t1 t2

/-- Substring test on character lists: Python `needle in hay`. -/
def subIn (needle : List Char) : List Char → Bool
  | [] => needle.isEmpty
  | c :: rest => startsWithL needle (c :: rest) || subIn needle rest

def strHasSub (needle hay : String) : Bool := subIn needle.toList hay.toList

/-- The operator list of `_is_comparison` / `_format_comparison`
(lines 343 and 349, longest first). -/
def comparisonOps : List String := [">=", "<=", "!=", ">", "<", "="]

/-- `ParadoxWriter._is_comparison` (lines 341-344). -/
def is_comparison (k : String) : Bool :=
  comparisonOps.any (fun op => strHasSub op k)

/-- Python `str.split(op, 1)`: split at the first occurrence of `needle`,
or `none` when `needle` does not occur. -/
def splitOnce (needle : List Char) : List Char → Option (List Char × List Char)
  | [] => none
  | c :: rest =>
    if startsWithL needle (c :: rest) then some ([], (c :: rest).drop needle.length)
    else
      match splitOnce needle rest with
      | some (pre, post) => some (c :: pre, post)
      | none => none

/-- The whitespace set of Python `str.strip()` (CPython's
`Py_UNICODE_ISSPACE`, i.e. `str.isspace()`): the controls U+0009-U+000D
and U+001C-U+001F, the space U+0020, NEL U+0085, NBSP U+00A0, the Ogham
space mark U+1680, the typographic spaces U+2000-U+200A, the line and
paragraph separators U+2028/U+2029, the narrow no-break space U+202F,
the medium mathematical space U+205F and the ideographic space
U+3000. -/
def isPyStripWs (c : Char) : Bool :=
  decide ((0x09 ≤ c.toNat ∧ c.toNat ≤ 0x0d) ∨
          (0x1c ≤ c.toNat ∧ c.toNat ≤ 0x1f) ∨
          c.toNat = 0x20 ∨ c.toNat = 0x85 ∨ c.toNat = 0xa0 ∨
          c.toNat = 0x1680 ∨
          (0x2000 ≤ c.toNat ∧ c.toNat ≤ 0x200a) ∨
          c.toNat = 0x2028 ∨ c.toNat = 0x2029 ∨
          c.toNat = 0x202f ∨ c.toNat = 0x205f ∨ c.toNat = 0x3000)

def stripL (l : List Char) : List Char :=
  ((l.dropWhile (fun c => isPyStripWs c)).reverse.dropWhile
    (fun c => isPyStripWs c)).reverse

/-- Python `str.strip()`. -/
def pyStrip (s : String) : String := String.mk (stripL s.toList)

/-- Truthiness of `content.strip()`: the string has a non-whitespace
character (lines 295 and 314). -/
def hasNonWs (s : String) : Bool := s.toList.any (fun c => !(isPyStripWs c))

/-- `ParadoxWriter._format_comparison` (lines 346-354). -/
def format_comparison (k : String) : String :=
  match comparisonOps.find? (fun op => strHasSub op k) with
  | some op =>
    match splitOnce op.toList k.toList with
    | some (pre, post) =>
      pyStrip (String.mk pre) ++ " " ++ op ++ " " ++ pyStrip (String.mk post)
    | none => k
  | none => k

/-- The quoting test of `ParadoxWriter._write_value` (line 333):
`' ' in value or any(c in value for c in ['=', '{', '}', '#'])`. -/
def needs_quotes (s : String) : Bool :=
  s.toList.contains ' ' || [('=' : Char), lbrace, rbrace, '#'].any
    (fun c => s.toList.contains c)

/-- `ParadoxWriter._write_value` (lines 327-339).  The source only calls it
on non-dict, non-list values (the `isinstance` guards of `_write_dict` and
`_write_list`); the `vDict`/`vList` cases are therefore unreachable and map
to the empty string. -/
def write_value : PValue → String
  | .vBool b => if b then "yes" else "no"
  | .vStr s => if needs_quotes s then "\x22" ++ s ++ "\x22" else s
  | .vInt n => toString n
  | .vNone => "None"
  | .vDict _ => ""
  | .vList _ => ""

/-- Python `indent_char * indent_level`. -/
def indStr (ic : String) (l : Nat) : String := String.join (List.replicate l ic)

/-- Python `'\n'.join(lines)`. -/
def joinNL : List String → String
  | [] => ""
  | [s] => s
  | s :: t => s ++ "\n" ++ joinNL t

mutual

/-- The line-accumulation loop of `ParadoxWriter._write_dict`
(lines 276-303); each entry contributes its lines in order. -/
def write_dict (ic : String) (lvl : Nat) : List (String × PValue) → List String
  | [] => []
  | (k, v) :: rest => write_entry ic lvl k v ++ write_dict ic lvl rest

/-- The body of the `for key, value in d.items()` loop of `_write_dict`:
comparison keys are emitted bare; dict values as `key = { … }`; list
values likewise but omitted entirely when the rendered content strips to
nothing; all other values as `key = value`. -/
def write_entry (ic : String) (lvl : Nat) (k : String) (v : PValue) : List String :=
  if is_comparison k then [indStr ic lvl ++ format_comparison k]
  else
    match v with
    | .vDict d =>
      [indStr ic lvl ++ k ++ " = \x7b", joinNL (write_dict ic (lvl + 1) d),
       indStr ic lvl ++ "\x7d"]
    | .vList xs =>
      let content := joinNL (write_list ic (lvl + 1) xs)
      if hasNonWs content then
        [indStr ic lvl ++ k ++ " = \x7b", content, indStr ic lvl ++ "\x7d"]
      else []
    | v' => [indStr ic lvl ++ k ++ " = " ++ write_value v']

/-- The line-accumulation loop of `ParadoxWriter._write_list`
(lines 305-325). -/
def write_list (ic : String) (lvl : Nat) : List PValue → List String
  | [] => []
  | item :: rest => write_list_item ic lvl item ++ write_list ic lvl rest

/-- The body of the `for item in lst` loop of `_write_list`: dict items are
flattened to their own lines (skipped when blank), nested lists are
flattened, and every other item is written on its own indented line. -/
def write_list_item (ic : String) (lvl : Nat) (item : PValue) : List String :=
  match item with
  | .vDict d =>
    let c := joinNL (write_dict ic lvl d)
    if hasNonWs c then [c] else []
  | .vList xs =>
    let c := joinNL (write_list ic lvl xs)
    if hasNonWs c then [c] else []
  | v' => [indStr ic lvl ++ write_value v']

end

/-- `ParadoxWriter.write` (lines 255-274). -/
def pdx_write (ic : String) : PValue → String
  | .vNone => ""
  | .vDict d => joinNL (write_dict ic 0 d)
  | .vList xs => joinNL (write_list ic 0 xs)
  | v => write_value v

/-- `ParadoxHelper.get_script_block` (lines 430-436), together with
`get_root` (lines 420-423).  `get_root` takes the first key of the dict
(`next(iter(tree))`, raising `StopIteration` on an empty dict); the root's
value must support `.get` (a dict), otherwise Python raises
`AttributeError`; a missing block defaults to `{}`; a non-list result is
wrapped into a one-element list. -/
def get_script_block (tree : PValue) (name : String) : Except String PValue :=
  match tree with
  | .vDict [] => .error "StopIteration"
  | .vDict ((r, v0) :: rest) =>
    match dictFind ((r, v0) :: rest) r with
    | some (.vDict inner) =>
      let block := (dictFind inner name).getD (.vDict [])
      .ok (match block with
           | .vList xs => .vList xs
           | b => .vList [b])
    | _ => .error "AttributeError"
  | _ => .error "TypeError"

/-- The raw (pre-scaling) allocations of `heuristic_alloc`
(`allocator.py` lines 43-56), in exact real arithmetic: with
`avg_sqrt_w = (Σ √wᵢ)/n`, `avg_shift = (Σ (B+x0ᵢ))/n` and
`lam = (B·avg_sqrt_w/(M/n+avg_shift))²`, the raw allocation of
initiative `i` is `max 0 (B·√(wᵢ/lam) − B − x0ᵢ)`.  An initiative is the
pair (weight, baseline); names play no role. -/
noncomputable def heuristicRaw (inits : List (ℝ × ℝ)) (M B : ℝ) : List ℝ :=
  let n : ℕ := inits.length
  let weights := inits.map Prod.fst
  let x0s := inits.map Prod.snd
  let avgSqrtW := (weights.map Real.sqrt).sum / n
  let avgShift := (x0s.map (fun x0 => B + x0)).sum / n
  let lam := (B * avgSqrtW / (M / n + avgShift)) ^ 2
  List.zipWith (fun w x0 => max 0 (B * Real.sqrt (w / lam) - B - x0)) weights x0s

/-- `heuristic_alloc` (`allocator.py` lines 28-78), restricted to the
allocation vector `x` it returns: the trivial case `n == 0 or M <= 0`
returns `[0.0] * n`; otherwise the raw allocations are scaled by `M / S`
when their sum `S` is positive, and are all zero when `S == 0` (in exact
arithmetic `S ≤ 0` collapses to `S = 0`: each raw entry is a `max` with
`0`). -/
noncomputable def heuristic_alloc (inits : List (ℝ × ℝ)) (M B : ℝ) : List ℝ :=
  let n := inits.length
  if n = 0 ∨ M ≤ 0 then List.replicate n (0 : ℝ)
  else
    let xRaw := heuristicRaw inits M B
    let S := xRaw.sum
    if 0 < S then xRaw.map (fun xi => xi * (M / S)) else List.replicate n (0 : ℝ)

/-- The input of claim C1's example, `a = { {`: a stray `{` at key
position inside a nested region. -/
def strayBraceInput : List Char := ("a = \x7b \x7b").toList

/-- From the state where the collection loop faces a bare `{` at key
position, the loop never terminates: `parse_comparison_or_value` returns
the empty string (never `None`, so the `if key is None: break` guard is
dead), the item is recorded without consuming any input, and the loop
repeats in the same state. -/
theorem collect_stuck_on_brace :
    ∀ (f : Nat) (its : List Item), runP f (.collectC [lbrace] its) = .noFuel := by
  intro f
  induction f with
  | zero => intro its; rfl
  | succ f ih =>
    intro its
    have h : runP (f + 1) (.collectC [lbrace] its) =
        runP f (.collectC [lbrace] (its ++ [⟨"", .vBool true, false⟩])) := rfl
    rw [h]
    exact ih _

theorem collect_pre_stuck :
    ∀ (f : Nat) (its : List Item),
      runP f (.collectC [' ', lbrace] its) = .noFuel := by
  intro f its
  cases f with
  | zero => rfl
  | succ f =>
    have h : runP (f + 1) (.collectC [' ', lbrace] its) =
        runP f (.collectC [lbrace] (its ++ [⟨"", .vBool true, false⟩])) := rfl
    rw [h]
    exact collect_stuck_on_brace f _

theorem obj_stuck :
    ∀ (f : Nat), runP f (.objC [lbrace, ' ', lbrace]) = .noFuel := by
  intro f
  cases f with
  | zero => rfl
  | succ f =>
    have h : runP (f + 1) (.objC [lbrace, ' ', lbrace]) =
        runP f (.collectC [' ', lbrace] []) := rfl
    rw [h]
    exact collect_pre_stuck f []

theorem val_stuck :
    ∀ (f : Nat), runP f (.valC [lbrace, ' ', lbrace]) = .noFuel := by
  intro f
  cases f with
  | zero => rfl
  | succ f =>
    have h : runP (f + 1) (.valC [lbrace, ' ', lbrace]) =
        runP f (.objC [lbrace, ' ', lbrace]) := rfl
    rw [h]
    exact obj_stuck f

/-- Claim C1: the claim states that the region-collection loop of
`parse_object` stops on an empty or absent key, so that parsing terminates
and returns a tree for every input without raising.  The code does neither:
(1) on `a = { {` (a stray `{` at key position inside a nested region) the
loop never terminates — the embedded parser returns `noFuel` for every
fuel, because the dead `if key is None` guard never fires for the empty
key read at the `{`; and (2) on the input `a` the parser raises
`TypeError` (`None in '<>'` at end of input) instead of returning a
tree. -/
theorem cl1_parse_loops_and_raises :
    (∀ fuel : Nat, pdxParse fuel strayBraceInput = .noFuel) ∧
      pdxParse 20 (("a").toList) = .tyErr := by
  constructor
  · intro fuel
    match fuel with
    | 0 => rfl
    | 1 => rfl
    | (f + 2) =>
      have h : pdxParse (f + 2) strayBraceInput =
          (match runP f (.valC [lbrace, ' ', lbrace]) with
           | .ok v s4 => runP f (.collectC s4 ([] ++ [⟨"a", v, true⟩]))
           | .tyErr => PRes.tyErr
           | .noFuel => PRes.noFuel) := rfl
      rw [h, val_stuck f]
  · rfl

/-- The classification branch of `parse_object` for regions whose items
all carry an operator while some key repeats (lines 216-221): the result
is the Python list of one single-key dict per item, in the items' original
order, duplicates kept as separate elements.  (Supplementary to claim C2:
the classification rule itself matches the code; only the end-of-input
handling of the claim's example diverges.) -/
theorem classify_all_ops_dup (items : List Item)
    (hop : ∀ it ∈ items, it.hasOp = true)
    (hdup : ¬ (items.map (fun it => it.key)).Nodup) :
    classify items = .vList (items.map (fun it => .vDict [(it.key, it.value)])) := by
  have hne : ¬ items.isEmpty = true := by
    cases items with
    | nil => exact absurd List.nodup_nil hdup
    | cons a t => simp
  have hall : items.all (fun it => it.hasOp) = true := List.all_eq_true.mpr hop
  unfold classify
  rw [if_neg hne, hall]
  simp [decide_eq_false hdup]

/-- Claim C2: the claim's classification rule for all-operator regions with
a repeated key is the code's (see `classify_all_ops_dup`), but the claim's
example input `a = 1` followed by `a = 2` does not parse to an EntryList:
the final value `2` is followed by end of input, where
`parse_comparison_or_value` evaluates `None in '<>'` and raises
`TypeError`. -/
theorem cl2_duplicate_keys_example_raises :
    pdxParse 30 (("a = 1\na = 2").toList) = .tyErr := rfl

/-- Claim C3: serialize-then-parse does not round-trip.  Even for the
one-entry Table `{a: Scalar "1"}` with a unique key and a Scalar leaf, the
writer emits `a = 1`, and parsing `a = 1` raises `TypeError`
(`None in '<>'`: the value's identifier ends at end of input) instead of
returning a Table. -/
theorem cl3_roundtrip_raises :
    pdx_write "\t" (.vDict [("a", .vStr "1")]) = "a = 1" ∧
      pdxParse 30 (("a = 1").toList) = .tyErr := ⟨rfl, rfl⟩

/-- Claim C7: the mixed-region classification (bare key then assigned key,
same name) matches the claim — inside a braced region, `{a` ↵ `a = 1}`
parses to `Table{a: List[Flag, Scalar "1"]}` — but the claim's exact
example input `a` ↵ `a = 1` raises `TypeError` (`None in '<>'` at end of
input after the value `1`) instead of returning that Table. -/
theorem cl7_mixed_example :
    pdxParse 30 (("a\na = 1").toList) = .tyErr ∧
      pdxParse 30 (("\x7ba\na = 1\x7d").toList) =
        .ok (.vDict [("a", .vList [.vBool true, .vStr "1"])]) [] := ⟨rfl, rfl⟩

/-- The claim's escape rule, stated independently of the parser: a
backslash consumes itself and copies the single next character verbatim;
there is no escape table. -/
def unesc : List Char → List Char
  | [] => []
  | c :: t =>
    if c = bslash then
      match t with
      | [] => []
      | d :: t2 => d :: unesc t2
    else c :: unesc t

/-- `cs` contains no unescaped occurrence of the quote `q` and does not end
in the middle of an escape (so a `q` appended after `cs` is a real closing
quote). -/
def noCloseQ (q : Char) : List Char → Bool
  | [] => true
  | c :: t =>
    if c = bslash then
      match t with
      | [] => false
      | _ :: t2 => noCloseQ q t2
    else decide (c ≠ q) && noCloseQ q t

/-- `cs` contains no unescaped occurrence of the quote `q`; a trailing lone
backslash is allowed (the source consumes it and finds end of input). -/
def noEndQ (q : Char) : List Char → Bool
  | [] => true
  | c :: t =>
    if c = bslash then
      match t with
      | [] => true
      | _ :: t2 => noEndQ q t2
    else decide (c ≠ q) && noEndQ q t

theorem unesc_bslash (d : Char) (t : List Char) :
    unesc (bslash :: d :: t) = d :: unesc t := by
  rw [unesc.eq_def]; simp

theorem unesc_cons (c : Char) (t : List Char) (hb : c ≠ bslash) :
    unesc (c :: t) = c :: unesc t := by
  rw [unesc.eq_def]; simp [hb]

theorem noCloseQ_bslash (q d : Char) (t : List Char) :
    noCloseQ q (bslash :: d :: t) = noCloseQ q t := by
  rw [noCloseQ.eq_def]; simp

theorem noCloseQ_cons (q c : Char) (t : List Char) (hb : c ≠ bslash) :
    noCloseQ q (c :: t) = (decide (c ≠ q) && noCloseQ q t) := by
  rw [noCloseQ.eq_def]; simp [hb]

theorem noEndQ_bslash (q d : Char) (t : List Char) :
    noEndQ q (bslash :: d :: t) = noEndQ q t := by
  rw [noEndQ.eq_def]; simp

theorem noEndQ_cons (q c : Char) (t : List Char) (hb : c ≠ bslash) :
    noEndQ q (c :: t) = (decide (c ≠ q) && noEndQ q t) := by
  rw [noEndQ.eq_def]; simp [hb]

theorem stringAux_quote (q : Char) (rest : List Char) :
    stringAux q (q :: rest) = ([], rest) := by
  rw [stringAux.eq_def]; simp

theorem stringAux_bslash_step (q : Char) (hbq : ¬ bslash = q) (d : Char)
    (t : List Char) (a r : List Char) (h : stringAux q t = (a, r)) :
    stringAux q (bslash :: d :: t) = (d :: a, r) := by
  rw [stringAux.eq_def]; simp [hbq, h]

theorem stringAux_cons_step (q c : Char) (hcq : ¬ c = q) (hb : ¬ c = bslash)
    (t : List Char) (a r : List Char) (h : stringAux q t = (a, r)) :
    stringAux q (c :: t) = (c :: a, r) := by
  rw [stringAux.eq_def]; simp [hcq, hb, h]

theorem stringAux_close (q : Char) (hq : q ≠ bslash) :
    ∀ (n : Nat) (cs rest : List Char), cs.length ≤ n → noCloseQ q cs = true →
      stringAux q (cs ++ q :: rest) = (unesc cs, rest) := by
  intro n
  induction n with
  | zero =>
    intro cs rest hlen _
    have hcs : cs = [] := List.eq_nil_of_length_eq_zero (Nat.le_zero.mp hlen)
    subst hcs
    rw [List.nil_append, stringAux_quote]
    rfl
  | succ n ih =>
    intro cs rest hlen h
    cases cs with
    | nil =>
      rw [List.nil_append, stringAux_quote]
      rfl
    | cons c t =>
      by_cases hb : c = bslash
      · subst hb
        cases t with
        | nil => simp [noCloseQ.eq_def] at h
        | cons d t2 =>
          rw [noCloseQ_bslash] at h
          have hlen2 : t2.length ≤ n := by
            simp [List.length_cons] at hlen; omega
          have hbq : ¬ bslash = q := fun hc => hq hc.symm
          rw [List.cons_append, List.cons_append, unesc_bslash]
          exact stringAux_bslash_step q hbq d _ _ _ (ih t2 rest hlen2 h)
      · rw [noCloseQ_cons q c t hb] at h
        rw [Bool.and_eq_true, decide_eq_true_eq] at h
        have hlen2 : t.length ≤ n := by
          simp [List.length_cons] at hlen; omega
        rw [List.cons_append, unesc_cons c t hb]
        exact stringAux_cons_step q c h.1 hb _ _ _ (ih t rest hlen2 h.2)

theorem stringAux_to_end (q : Char) (hq : q ≠ bslash) :
    ∀ (n : Nat) (cs : List Char), cs.length ≤ n → noEndQ q cs = true →
      stringAux q cs = (unesc cs, []) := by
  intro n
  induction n with
  | zero =>
    intro cs hlen _
    have hcs : cs = [] := List.eq_nil_of_length_eq_zero (Nat.le_zero.mp hlen)
    subst hcs
    rfl
  | succ n ih =>
    intro cs hlen h
    cases cs with
    | nil => rfl
    | cons c t =>
      by_cases hb : c = bslash
      · subst hb
        have hbq : ¬ bslash = q := fun hc => hq hc.symm
        cases t with
        | nil =>
          rw [stringAux.eq_def]
          simp only [if_neg hbq, if_pos rfl]
          rw [unesc.eq_def]
          simp
        | cons d t2 =>
          rw [noEndQ_bslash] at h
          have hlen2 : t2.length ≤ n := by
            simp [List.length_cons] at hlen; omega
          rw [unesc_bslash]
          exact stringAux_bslash_step q hbq d _ _ _ (ih t2 hlen2 h)
      · rw [noEndQ_cons q c t hb] at h
        rw [Bool.and_eq_true, decide_eq_true_eq] at h
        have hlen2 : t.length ≤ n := by
          simp [List.length_cons] at hlen; omega
        rw [unesc_cons c t hb]
        exact stringAux_cons_step q c h.1 hb _ _ _ (ih t hlen2 h.2)

/-- Claim C8: `parse_string` positioned at an opening quote (`"` or `'`)
accumulates characters until the matching closing quote, a backslash
consuming itself and copying the next character verbatim (`unesc`), and on
input where the closing quote never appears it consumes to end of input and
returns exactly the characters collected.  The embedded reader is a total
function — no outcome raises. -/
theorem cl8_parse_string (q : Char) (hq : q = dquote ∨ q = squote)
    (cs rest : List Char) :
    (noCloseQ q cs = true →
       parse_string (q :: (cs ++ q :: rest)) = (String.mk (unesc cs), rest)) ∧
    (noEndQ q cs = true →
       parse_string (q :: cs) = (String.mk (unesc cs), [])) := by
  have hq' : q ≠ bslash := by rcases hq with h | h <;> subst h <;> decide
  constructor
  · intro h
    have hs := stringAux_close q hq' cs.length cs rest le_rfl h
    simp [parse_string, hs]
  · intro h
    have hs := stringAux_to_end q hq' cs.length cs le_rfl h
    simp [parse_string, hs]

/-- Witness for C8 at the concrete input `"a\"b"x`: the body `a\"b` has no
unescaped closing quote, and reading it yields the text `a"b` with `x`
left over. -/
theorem cl8_parse_string_witness :
    noCloseQ dquote ['a', bslash, dquote, 'b'] = true ∧
      parse_string (dquote :: (['a', bslash, dquote, 'b'] ++ dquote :: ['x'])) =
        (String.mk (unesc ['a', bslash, dquote, 'b']), ['x']) :=
  ⟨by decide,
   (cl8_parse_string dquote (Or.inl rfl) ['a', bslash, dquote, 'b'] ['x']).1
     (by decide)⟩

/-- The quoting test of `_write_value`, characterized per character: a
string is quoted iff it contains a space, `=`, `{`, `}`, or `#`. -/
theorem needs_quotes_char (s : String) :
    needs_quotes s = s.toList.any
      (fun c => decide (c = ' ' ∨ c = '=' ∨ c = lbrace ∨ c = rbrace ∨ c = '#')) := by
  rw [Bool.eq_iff_iff]
  simp [needs_quotes, List.any_eq_true, List.elem_iff]
  constructor
  · rintro (h | h | h | h | h)
    · exact ⟨' ', h, by simp⟩
    · exact ⟨'=', h, by simp⟩
    · exact ⟨lbrace, h, by simp⟩
    · exact ⟨rbrace, h, by simp⟩
    · exact ⟨'#', h, by simp⟩
  · rintro ⟨c, hc, h | h | h | h | h⟩ <;> subst h <;> simp [hc]

/-- Counterexample to claim C5: the tab-containing Scalar `a\tb` is
emitted without quotes, although the claim's quoting condition (which
includes tab, CR, LF, `<`, `>`) requires it to be wrapped in double
quotes. -/
theorem cl5_quoting_counterexample :
    write_value (.vStr "a\tb") = "a\tb" ∧ "a\tb" ≠ "\x22a\tb\x22" :=
  ⟨rfl, by decide⟩

/-- Claim C5 (amended): the Writer wraps a Scalar text in double quotes if
and only if it contains a space, `=`, `{`, `}`, or `#`.  Tab, CR, LF, `<`
and `>` do not trigger quoting, and there is no exemption for text that is
already wrapped in matching quotes; a plain token such as `plain` is
emitted without quotes. -/
theorem cl5_quoting_rule (s : String) :
    write_value (.vStr s) =
      if s.toList.any
          (fun c => decide (c = ' ' ∨ c = '=' ∨ c = lbrace ∨ c = rbrace ∨ c = '#'))
      then "\x22" ++ s ++ "\x22" else s := by
  simp only [write_value]
  rw [needs_quotes_char]

theorem write_entry_flag (ic : String) (lvl : Nat) (k : String)
    (hk : is_comparison k = false) :
    write_entry ic lvl k (.vBool true) = [indStr ic lvl ++ k ++ " = yes"] := by
  rw [write_entry.eq_def]
  simp [hk, write_value]
  rw [String.append_assoc]
  congr 1

/-- Counterexample to claim C4: the Table `{a: Flag}` (Python
`{'a': True}`) is written as `a = yes`, not as the bare key `a`; an `=`
sign does appear after the key. -/
theorem cl4_flag_counterexample :
    pdx_write "\t" (.vDict [("a", .vBool true)]) = "a = yes" ∧
      "a = yes" ≠ "a" := ⟨rfl, by decide⟩

/-- Claim C4 (amended): a Table entry whose value is the Flag sentinel
(Python `True`) is emitted by the Writer as `key = yes` — the boolean
serialization of `_write_value` — not as a bare key; the `=` sign is
present (for any non-comparison key). -/
theorem cl4_flag_entry (ic : String) (lvl : Nat) (k : String)
    (hk : is_comparison k = false) :
    write_entry ic lvl k (.vBool true) = [indStr ic lvl ++ k ++ " = yes"] :=
  write_entry_flag ic lvl k hk

/-- Witness for C4 at the key `a` and indent level 0. -/
theorem cl4_flag_entry_witness :
    is_comparison "a" = false ∧
      write_entry "\t" 0 "a" (.vBool true) = [indStr "\t" 0 ++ "a" ++ " = yes"] :=
  ⟨by decide, cl4_flag_entry "\t" 0 "a" (by decide)⟩

/-- A plain scalar token: nonempty, no whitespace, and none of the
characters `=`, `{`, `}`, `#` (so it needs no quoting and survives a
`strip`). -/
def plainTok (x : String) : Bool :=
  (!(x.toList.isEmpty)) && x.toList.all
    (fun c => !(isPyStripWs c) &&
      !(decide (c = '=' ∨ c = lbrace ∨ c = rbrace ∨ c = '#')))

theorem write_value_plain (x : String) (hx : plainTok x = true) :
    write_value (.vStr x) = x := by
  rw [plainTok, Bool.and_eq_true] at hx
  have hq : needs_quotes x = false := by
    rw [needs_quotes_char]
    rw [Bool.eq_false_iff]
    intro hco
    obtain ⟨c, hc, hdec⟩ := List.any_eq_true.mp hco
    have hall := List.all_eq_true.mp hx.2 c hc
    rw [Bool.and_eq_true] at hall
    rw [decide_eq_true_eq] at hdec
    rcases hdec with h | h | h | h | h <;> subst h <;>
      exact absurd hall (by decide)
  simp only [write_value, hq]
  simp

theorem write_list_scalars (ic : String) (lvl : Nat) :
    ∀ (xs : List String), (∀ x ∈ xs, plainTok x = true) →
      write_list ic lvl (xs.map PValue.vStr) =
        xs.map (fun x => indStr ic lvl ++ x) := by
  intro xs
  induction xs with
  | nil => intro _; rfl
  | cons x t ih =>
    intro hx
    have hhead : write_list_item ic lvl (.vStr x) = [indStr ic lvl ++ x] := by
      rw [show write_list_item ic lvl (.vStr x) =
            [indStr ic lvl ++ write_value (.vStr x)] from rfl,
          write_value_plain x (hx x (by simp))]
    have hstep : write_list ic lvl ((x :: t).map PValue.vStr) =
        write_list_item ic lvl (.vStr x) ++ write_list ic lvl (t.map PValue.vStr) :=
      rfl
    rw [hstep, hhead, ih (fun y hy => hx y (by simp [hy]))]
    rfl

theorem string_toList_append (a b : String) :
    (a ++ b).toList = a.toList ++ b.toList := rfl

theorem hasNonWs_append (a b : String) :
    hasNonWs (a ++ b) = (hasNonWs a || hasNonWs b) := by
  simp [hasNonWs, string_toList_append, List.any_append]

theorem plain_hasNonWs (x : String) (hx : plainTok x = true) :
    hasNonWs x = true := by
  rw [plainTok, Bool.and_eq_true] at hx
  cases hl : x.toList with
  | nil => rw [hl] at hx; simp at hx
  | cons c t =>
    have hall := List.all_eq_true.mp hx.2 c (by rw [hl]; simp)
    rw [Bool.and_eq_true] at hall
    rw [hasNonWs, hl]
    simp [List.any_cons]
    left
    simpa using hall.1

theorem hasNonWs_joinNL_head (s : String) (t : List String)
    (h : hasNonWs s = true) : hasNonWs (joinNL (s :: t)) = true := by
  cases t with
  | nil => exact h
  | cons b t2 =>
    have hj : joinNL (s :: b :: t2) = s ++ "\n" ++ joinNL (b :: t2) := rfl
    rw [hj, hasNonWs_append, hasNonWs_append, h]
    simp

/-- Counterexample to claim C6: the 2-element Scalar list under key `k`
is not emitted inline on one line as `k = { 1 2 }`; the writer always puts
one element per line inside the braces. -/
theorem cl6_inline_counterexample :
    pdx_write "\t" (.vDict [("k", .vList [.vStr "1", .vStr "2"])]) =
        "k = \x7b\n\t1\n\t2\n\x7d" ∧
      "k = \x7b\n\t1\n\t2\n\x7d" ≠ "k = \x7b 1 2 \x7d" := ⟨rfl, by decide⟩

/-- Claim C6 (amended): for every Table entry whose value is a nonempty
List of plain Scalar tokens, the Writer emits `key = {`, then one element
per line at one deeper indent, then `}` — regardless of the list's length
(there is no inline form for lists of at most 3 elements). -/
theorem cl6_list_entry (ic : String) (lvl : Nat) (k : String) (xs : List String)
    (hk : is_comparison k = false) (hne : xs ≠ [])
    (hx : ∀ x ∈ xs, plainTok x = true) :
    write_entry ic lvl k (.vList (xs.map PValue.vStr)) =
      [indStr ic lvl ++ k ++ " = \x7b",
       joinNL (xs.map (fun x => indStr ic (lvl + 1) ++ x)),
       indStr ic lvl ++ "\x7d"] := by
  obtain ⟨x, t, rfl⟩ := List.exists_cons_of_ne_nil hne
  have hw := write_list_scalars ic (lvl + 1) (x :: t) hx
  have hcontent : hasNonWs
      (joinNL ((x :: t).map (fun y => indStr ic (lvl + 1) ++ y))) = true := by
    rw [List.map_cons]
    apply hasNonWs_joinNL_head
    rw [hasNonWs_append, plain_hasNonWs x (hx x (by simp))]
    simp
  have hred : write_entry ic lvl k (.vList ((x :: t).map PValue.vStr)) =
      (if is_comparison k then [indStr ic lvl ++ format_comparison k]
       else if hasNonWs (joinNL (write_list ic (lvl + 1) ((x :: t).map PValue.vStr))) then
         [indStr ic lvl ++ k ++ " = \x7b",
          joinNL (write_list ic (lvl + 1) ((x :: t).map PValue.vStr)),
          indStr ic lvl ++ "\x7d"]
       else []) := rfl
  rw [hred, hk]
  rw [if_neg (by decide)]
  rw [hw]
  rw [if_pos hcontent]

/-- Witness for C6 at the entry `k = { 1 2 }` (a 2-element Scalar list):
the writer emits the elements one per line. -/
theorem cl6_list_entry_witness :
    is_comparison "k" = false ∧ (["1", "2"] : List String) ≠ [] ∧
      (∀ x ∈ (["1", "2"] : List String), plainTok x = true) ∧
      write_entry "\t" 0 "k" (.vList ((["1", "2"] : List String).map PValue.vStr)) =
        [indStr "\t" 0 ++ "k" ++ " = \x7b",
         joinNL ((["1", "2"] : List String).map (fun x => indStr "\t" (0 + 1) ++ x)),
         indStr "\t" 0 ++ "\x7d"] :=
  ⟨by decide, by decide, by decide,
   cl6_list_entry "\t" 0 "k" ["1", "2"] (by decide) (by decide) (by decide)⟩

/-- Counterexample to claim C9: `a = 1 }` parses (without error) to the
tree `{a: Scalar "1"}`, whose root Table has one key; but
`get_script_block` on it raises `AttributeError` (`'str' object has no
attribute 'get'`) for any block name instead of returning a List. -/
theorem cl9_get_script_block_counterexample :
    pdxParse 30 (("a = 1 \x7d").toList) = .ok (.vDict [("a", .vStr "1")]) [] ∧
      get_script_block (.vDict [("a", .vStr "1")]) "x" =
        .error "AttributeError" := ⟨rfl, rfl⟩

/-- Claim C9 (amended): for every tree whose root Table has at least one
key and whose root value is itself a Table, `get_script_block` returns a
List: a List value at the requested name is returned as-is, any other
present value is wrapped as a one-element List, and an absent name yields
a one-element List containing an empty Table (not the empty List). -/
theorem cl9_get_script_block (r : String) (inner rest : List (String × PValue))
    (name : String) :
    get_script_block (.vDict ((r, .vDict inner) :: rest)) name =
      .ok (match dictFind inner name with
           | some (.vList xs) => .vList xs
           | some b => .vList [b]
           | none => .vList [.vDict []]) := by
  have hfind : dictFind ((r, PValue.vDict inner) :: rest) r =
      some (PValue.vDict inner) := by
    rw [dictFind.eq_def]; simp
  rw [get_script_block.eq_def]
  simp only [hfind]
  rcases hv : dictFind inner name with _ | v
  · simp [hv]
  · cases v <;> simp [hv]

theorem zipWith_max_nonneg (g : ℝ → ℝ → ℝ) (hg : ∀ a b, 0 ≤ g a b) :
    ∀ (l1 l2 : List ℝ), ∀ y ∈ List.zipWith g l1 l2, 0 ≤ y := by
  intro l1
  induction l1 with
  | nil => intro l2 y hy; simp at hy
  | cons a t ih =>
    intro l2 y hy
    cases l2 with
    | nil => simp at hy
    | cons b t2 =>
      rw [List.zipWith_cons_cons] at hy
      rcases List.mem_cons.mp hy with h | h
      · subst h; exact hg a b
      · exact ih t2 y h

theorem sum_map_mul_const (l : List ℝ) (c : ℝ) :
    (l.map (fun x => x * c)).sum = l.sum * c := by
  induction l with
  | nil => simp
  | cons a t ih => simp [ih, add_mul]

/-- Claim C10: for a nonempty initiative list with positive weights,
nonnegative baselines, budget `M > 0` and saturation `B > 0`,
`heuristic_alloc` returns a vector of length `n` with nonnegative
components, whose components sum exactly to `M` (in exact arithmetic)
whenever the raw pre-scaling allocations have positive sum; and in the
trivial case `n = 0` or `M ≤ 0` every returned allocation is zero. -/
theorem cl10_heuristic_alloc :
    (∀ (inits : List (ℝ × ℝ)) (M B : ℝ),
       0 < inits.length → (∀ p ∈ inits, 0 < p.1 ∧ 0 ≤ p.2) → 0 < M → 0 < B →
       (heuristic_alloc inits M B).length = inits.length ∧
       (∀ y ∈ heuristic_alloc inits M B, 0 ≤ y) ∧
       (0 < (heuristicRaw inits M B).sum →
          (heuristic_alloc inits M B).sum = M)) ∧
    (∀ (inits : List (ℝ × ℝ)) (M B : ℝ), inits.length = 0 ∨ M ≤ 0 →
       heuristic_alloc inits M B = List.replicate inits.length 0) := by
  constructor
  · intro inits M B hn hp hM hB
    have hcond : ¬(inits.length = 0 ∨ M ≤ 0) := by
      push_neg
      exact ⟨by omega, by linarith⟩
    have halloc : heuristic_alloc inits M B =
        (if 0 < (heuristicRaw inits M B).sum then
          (heuristicRaw inits M B).map
            (fun xi => xi * (M / (heuristicRaw inits M B).sum))
        else List.replicate inits.length 0) := by
      simp only [heuristic_alloc]
      rw [if_neg hcond]
    have hrawlen : (heuristicRaw inits M B).length = inits.length := by
      simp [heuristicRaw]
    have hrawnn : ∀ y ∈ heuristicRaw inits M B, 0 ≤ y := by
      intro y hy
      simp only [heuristicRaw] at hy
      exact zipWith_max_nonneg _ (fun a b => le_max_left _ _) _ _ y hy
    refine ⟨?_, ?_, ?_⟩
    · rw [halloc]
      by_cases hS : 0 < (heuristicRaw inits M B).sum
      · rw [if_pos hS, List.length_map, hrawlen]
      · rw [if_neg hS, List.length_replicate]
    · intro y hy
      rw [halloc] at hy
      by_cases hS : 0 < (heuristicRaw inits M B).sum
      · rw [if_pos hS] at hy
        obtain ⟨xi, hxi, rfl⟩ := List.mem_map.mp hy
        exact mul_nonneg (hrawnn xi hxi) (div_nonneg hM.le hS.le)
      · rw [if_neg hS] at hy
        rw [List.eq_of_mem_replicate hy]
    · intro hS
      rw [halloc, if_pos hS, sum_map_mul_const, mul_comm,
        div_mul_cancel₀ M (ne_of_gt hS)]
  · intro inits M B h
    simp only [heuristic_alloc]
    rw [if_pos h]

/-- Witness for C10 at the single initiative (weight 1, baseline 0) with
`M = 1`, `B = 1`. -/
theorem cl10_heuristic_alloc_witness :
    0 < ([((1 : ℝ), (0 : ℝ))] : List (ℝ × ℝ)).length ∧
      (0 : ℝ) < 1 ∧
      ((heuristic_alloc [((1 : ℝ), (0 : ℝ))] 1 1).length = 1 ∧
       (∀ y ∈ heuristic_alloc [((1 : ℝ), (0 : ℝ))] 1 1, 0 ≤ y) ∧
       (0 < (heuristicRaw [((1 : ℝ), (0 : ℝ))] 1 1).sum →
          (heuristic_alloc [((1 : ℝ), (0 : ℝ))] 1 1).sum = 1)) := by
  refine ⟨by norm_num, by norm_num, ?_⟩
  exact cl10_heuristic_alloc.1 [((1 : ℝ), (0 : ℝ))] 1 1 (by norm_num)
    (fun p hp => by rw [List.mem_singleton] at hp; subst hp; norm_num)
    (by norm_num) (by norm_num)
